import Mathlib

/-!
Verification of the buildersync agent runtime core against its specification.

The definitions below are a shallow embedding of the TypeScript source:
  - packages/core/src/prompt.ts   (template rendering, tag parsing entry)
  - packages/core/src/xml.ts      (XMLParser.parse)
  - packages/core/src/generate.ts (generateChatOutput visitors)
  - the ElizaRuntime class        (getRoomState, processActions, processActionCall)
  - packages/runtime/src/client.ts (handleRoomMessage orchestration loop)

Modelling conventions:
  - JavaScript values flowing through action params / results / template
    variables are modelled by the inductive JsonValue (floating point number
    literals are outside the model; none of the verified properties involve
    them, integers are kept exact).
  - Recursive scanners are written with an explicit fuel argument so that all
    definitions reduce inside the kernel; the wrappers pass a fuel that is an
    upper bound on the number of loop iterations of the original code (each
    iteration of the original consumes at least one character / one list cell).
  - Asynchronous code is modelled by explicit state passing.  The dispatcher
    runs handlers concurrently and awaits all of them (Promise.allSettled);
    the memory writes of one batch are modelled in list order, which fixes one
    interleaving.  The verified properties only depend on membership and
    counts of the written memories, which are the same for every interleaving.
  - The ambient runtime object, room ids and timestamps are elided: every
    verified property is about a single room and is time independent.
  - A rejected promise (a thrown exception in an async function) is modelled
    by Except / by an aborted state carrying a crashed flag.
-/

namespace BuilderSync

/-- Literal left brace character (written numerically). -/
def lbrace : Char := Char.ofNat 123

/-- Literal right brace character (written numerically). -/
def rbrace : Char := Char.ofNat 125

mutual

/-- JavaScript values carried in action params, results and template
variables.  Number literals are modelled as exact integers.  Arrays and
objects carry their own list types so that all operations are plain mutual
structural recursions (which the kernel can evaluate). -/
inductive JsonValue where
  | str (s : String)
  | num (n : Int)
  | bool (b : Bool)
  | null
  | arr (elems : JsonList)
  | obj (fields : JsonFields)

/-- A list of JSON values (the elements of a JSON array). -/
inductive JsonList where
  | nil
  | cons (head : JsonValue) (tail : JsonList)

/-- The key/value fields of a JSON object, in insertion order. -/
inductive JsonFields where
  | nil
  | cons (key : String) (value : JsonValue) (tail : JsonFields)

end

/-- Build a JsonList from an ordinary list (used to write literals). -/
def JsonList.ofList : List JsonValue → JsonList
  | [] => .nil
  | x :: xs => .cons x (JsonList.ofList xs)

/-- View a JsonList as an ordinary list. -/
def JsonList.toList : JsonList → List JsonValue
  | .nil => []
  | .cons x xs => x :: JsonList.toList xs

/-- Build JsonFields from an ordinary association list. -/
def JsonFields.ofList : List (String × JsonValue) → JsonFields
  | [] => .nil
  | (k, v) :: fs => .cons k v (JsonFields.ofList fs)

/-- Escaping of one character inside a JSON string literal,
as produced by JSON.stringify. -/
def escapeJsonChar (c : Char) : List Char :=
  if c = '"' then ['\\', '"']
  else if c = '\\' then ['\\', '\\']
  else if c = '\n' then ['\\', 'n']
  else if c = '\t' then ['\\', 't']
  else if c = '\r' then ['\\', 'r']
  else [c]

/-- JSON string escaping, as produced by JSON.stringify. -/
def escapeJsonString (s : String) : String :=
  String.mk (s.data.foldr (fun c acc => escapeJsonChar c ++ acc) [])

mutual

/-- JSON.stringify on the modelled values. -/
def jsonStringify : JsonValue → String
  | .str s => "\"" ++ escapeJsonString s ++ "\""
  | .num n => toString n
  | .bool b => if b then "true" else "false"
  | .null => "null"
  | .arr xs => "[" ++ String.intercalate "," (jsonStringifyList xs) ++ "]"
  | .obj fs => "\x7b" ++ String.intercalate "," (jsonStringifyFields fs) ++ "\x7d"

def jsonStringifyList : JsonList → List String
  | .nil => []
  | .cons x xs => jsonStringify x :: jsonStringifyList xs

def jsonStringifyFields : JsonFields → List String
  | .nil => []
  | .cons k v fs =>
      ("\"" ++ escapeJsonString k ++ "\":" ++ jsonStringify v)
        :: jsonStringifyFields fs

end

mutual

/-- prompt.ts formatValue: an array is newline-joined after formatting each
element recursively, a string is kept verbatim, anything else is serialized
with JSON.stringify. -/
def formatValue : JsonValue → String
  | .arr xs => String.intercalate "\n" (formatValueList xs)
  | .str s => s
  | .num n => jsonStringify (.num n)
  | .bool b => jsonStringify (.bool b)
  | .null => jsonStringify .null
  | .obj fs => jsonStringify (.obj fs)

def formatValueList : JsonList → List String
  | .nil => []
  | .cons x xs => formatValue x :: formatValueList xs

end

/-- A character matched by the regex class backslash-w: ASCII letters, digits
and underscore. -/
def isWordChar (c : Char) : Bool := c.isAlpha || c.isDigit || c = '_'

/-- The value substituted for a template key: data[key] with both a missing
key (undefined) and an explicit null collapsed to the empty string by the
nullish coalescing in the source. -/
def lookupTemplateValue (env : String → Option JsonValue) (key : String) :
    JsonValue :=
  match env key with
  | none => .str ""
  | some .null => .str ""
  | some v => v

/-- One attempt of the template regex at the current position: two left
braces, at least one word character, two right braces.  Returns the key and
the remaining text on a match. -/
def tryPlaceholder : List Char → Option (String × List Char)
  | c1 :: c2 :: rest =>
      if c1 = lbrace ∧ c2 = lbrace then
        let w := rest.takeWhile isWordChar
        let r := rest.dropWhile isWordChar
        if w.isEmpty then none
        else
          match r with
          | c3 :: c4 :: rest2 =>
              if c3 = rbrace ∧ c4 = rbrace then some (String.mk w, rest2)
              else none
          | _ => none
      else none
  | _ => none

/-- prompt.ts template: the global regex replace scans left to right,
attempting a placeholder match at every position and advancing one character
on failure.  Fuel: the length of the text suffices (every step consumes at
least one character). -/
def templateCharsF (env : String → Option JsonValue) :
    Nat → List Char → List Char
  | 0, cs => cs
  | _, [] => []
  | fuel + 1, c :: cs =>
      match tryPlaceholder (c :: cs) with
      | some (key, rest) =>
          (formatValue (lookupTemplateValue env key)).data
            ++ templateCharsF env fuel rest
      | none => c :: templateCharsF env fuel cs

/-- prompt.ts template(str, data): substitute every placeholder occurrence. -/
def template (str : String) (env : String → Option JsonValue) : String :=
  String.mk (templateCharsF env str.data.length str.data)

/-! Section: xml.ts, the XMLParser class. -/

/-- Trim of leading and trailing whitespace (String.prototype.trim). -/
def trimChars (cs : List Char) : List Char :=
  ((cs.dropWhile Char.isWhitespace).reverse.dropWhile Char.isWhitespace).reverse

/-- indexOf(c, start): index of the first occurrence of a character at or
after a start position. -/
def idxOfFrom (cs : List Char) (c : Char) (start : Nat) : Option Nat :=
  match (cs.drop start).findIdx? (fun x => x = c) with
  | some i => some (start + i)
  | none => none

/-- slice(a, b): the characters with indices in [a, b); empty when b is not
greater than a, exactly as in JavaScript. -/
def listSlice (cs : List Char) (a b : Nat) : List Char :=
  (cs.drop a).take (b - a)

/-- lastIndexOf(sub): start index of the last occurrence of a substring. -/
def lastIdxOfSub (cs sub : List Char) : Option Nat :=
  (List.range (cs.length + 1)).reverse.find?
    (fun i => (cs.drop i).take sub.length == sub)

/-- One scan of the attribute regex: word characters, an equals sign, a
double-quoted value.  The regex engine tries a match at every position,
advancing one character on failure; fuel equal to the text length suffices. -/
def parseAttrsF : Nat → List Char → List (String × String)
  | 0, _ => []
  | _, [] => []
  | fuel + 1, c :: cs =>
      if isWordChar c then
        let w := (c :: cs).takeWhile isWordChar
        let r := (c :: cs).dropWhile isWordChar
        match r with
        | '=' :: '"' :: r2 =>
            let v := r2.takeWhile (fun x => x ≠ '"')
            let r3 := r2.dropWhile (fun x => x ≠ '"')
            match r3 with
            | '"' :: rest => (String.mk w, String.mk v) :: parseAttrsF fuel rest
            | _ => parseAttrsF fuel cs
        | _ => parseAttrsF fuel cs
      else parseAttrsF fuel cs

/-- XMLParser.parseAttributes. -/
def parseAttributes (cs : List Char) : List (String × String) :=
  parseAttrsF cs.length cs

/-- A parsed node: free text, or an element with a name, attributes and raw
inner content (closed marks a self-closing tag). -/
inductive Node where
  | text (content : String)
  | element (name : String) (attributes : List (String × String))
      (content : String) (closed : Bool)

/-- The scanning loop of XMLParser.parse.  The visitors used by the runtime
never influence the scan and never request child parsing, so the loop is
modelled as returning the list of visited top-level nodes in visit order.
Fuel: every continuing iteration drops at least one character, so the text
length plus one is sufficient fuel. -/
def parseLoopF : Nat → List Char → List Node
  | 0, _ => []
  | fuel + 1, w =>
      if w.isEmpty then []
      else
        match idxOfFrom w '<' 0 with
        | none => [.text (String.mk (trimChars w))]
        | some tagStart =>
            let preNodes : List Node :=
              if 0 < tagStart then
                [.text (String.mk (trimChars (listSlice w 0 tagStart)))]
              else []
            match idxOfFrom w '>' tagStart with
            | none => preNodes
            | some tagEnd =>
                let tagContent := listSlice w (tagStart + 1) tagEnd
                let name := tagContent.takeWhile (fun x => x ≠ ' ')
                let attrParts := (tagContent.dropWhile (fun x => x ≠ ' ')).drop 1
                let attrs := parseAttributes attrParts
                if w.get? (tagEnd - 1) = some '/' then
                  preNodes ++ .element (String.mk name) attrs "" true
                    :: parseLoopF fuel (trimChars (w.drop (tagEnd + 1)))
                else
                  let closeTag := '<' :: '/' :: (name ++ ['>'])
                  match lastIdxOfSub w closeTag with
                  | none => preNodes
                  | some closePos =>
                      let content := trimChars (listSlice w (tagEnd + 1) closePos)
                      preNodes ++ .element (String.mk name) attrs (String.mk content) false
                        :: parseLoopF fuel (trimChars (w.drop (closePos + closeTag.length)))

/-- XMLParser.parse applied to a response string. -/
def xmlParse (s : String) : List Node :=
  parseLoopF (s.length + 1) (trimChars s.data)

/-! Section: JSON.parse.

A model of the JSON.parse builtin applied to action tag bodies.  Supported:
objects, arrays, strings with the common escapes, integer numbers, true,
false, null, whitespace, and rejection of trailing content.  Floating point
literals and unicode escapes are outside the model; no verified property
involves them. -/

/-- JSON whitespace: space, tab, newline, carriage return (the same set as
Char.isWhitespace). -/
def isJsonWs (c : Char) : Bool := c.isWhitespace

/-- Skip JSON whitespace. -/
def skipWs (cs : List Char) : List Char := cs.dropWhile isJsonWs

/-- Decoding of one escaped character inside a JSON string literal: a quote,
backslash or slash stands for itself, and the letters n, t, r stand for the
usual control characters. -/
def unescapeChar (e : Char) : Option Char :=
  if e = '"' ∨ e = '\\' ∨ e = '/' then some e
  else if e = 'n' then some '\n'
  else if e = 't' then some '\t'
  else if e = 'r' then some '\r'
  else none

/-- Parse the body of a JSON string literal after the opening quote,
returning the contents and the text after the closing quote. -/
def parseStringBodyF : Nat → List Char → Option (List Char × List Char)
  | 0, _ => none
  | _, [] => none
  | fuel + 1, c :: rest =>
      if c = '"' then some ([], rest)
      else if c = '\\' then
        match rest with
        | [] => none
        | e :: rest2 =>
            match unescapeChar e with
            | none => none
            | some u =>
                (parseStringBodyF fuel rest2).map (fun p => (u :: p.1, p.2))
      else (parseStringBodyF fuel rest).map (fun p => (c :: p.1, p.2))

/-- The value of a nonempty digit string. -/
def digitsToNat (ds : List Char) : Nat :=
  ds.foldl (fun n c => n * 10 + (c.toNat - '0'.toNat)) 0

/-- Parse a run of decimal digits. -/
def parseDigits (cs : List Char) : Option (Nat × List Char) :=
  let ds := cs.takeWhile Char.isDigit
  if ds.isEmpty then none
  else some (digitsToNat ds, cs.dropWhile Char.isDigit)

/-- Append one element at the end of a JsonList. -/
def appendElem : JsonList → JsonValue → JsonList
  | .nil, v => .cons v .nil
  | .cons x xs, v => .cons x (appendElem xs v)

/-- Append one field at the end of JsonFields. -/
def appendField : JsonFields → String → JsonValue → JsonFields
  | .nil, k, v => .cons k v .nil
  | .cons k0 v0 fs, k, v => .cons k0 v0 (appendField fs k v)

mutual

/-- Parse one JSON value, returning it and the remaining text. -/
def parseJsonValueF : Nat → List Char → Option (JsonValue × List Char)
  | 0, _ => none
  | fuel + 1, cs =>
      match skipWs cs with
      | [] => none
      | c :: rest =>
          if c = lbrace then parseObjBodyF fuel rest .nil
          else if c = '[' then parseArrBodyF fuel rest .nil
          else if c = '"' then
            (parseStringBodyF (rest.length + 1) rest).map
              (fun p => (.str (String.mk p.1), p.2))
          else if c = 't' then
            match rest with
            | 'r' :: 'u' :: 'e' :: r => some (.bool true, r)
            | _ => none
          else if c = 'f' then
            match rest with
            | 'a' :: 'l' :: 's' :: 'e' :: r => some (.bool false, r)
            | _ => none
          else if c = 'n' then
            match rest with
            | 'u' :: 'l' :: 'l' :: r => some (.null, r)
            | _ => none
          else if c = '-' then
            (parseDigits rest).map (fun p => (.num (-(p.1 : Int)), p.2))
          else if c.isDigit then
            (parseDigits (c :: rest)).map (fun p => (.num (p.1 : Int), p.2))
          else none

/-- Parse the fields of a JSON object after the opening brace. -/
def parseObjBodyF : Nat → List Char → JsonFields → Option (JsonValue × List Char)
  | 0, _, _ => none
  | fuel + 1, cs, acc =>
      match skipWs cs with
      | [] => none
      | c :: rest =>
          if c = rbrace then some (.obj acc, rest)
          else if c = '"' then
            match parseStringBodyF (rest.length + 1) rest with
            | none => none
            | some (k, r1) =>
                match skipWs r1 with
                | ':' :: r2 =>
                    match parseJsonValueF fuel r2 with
                    | none => none
                    | some (v, r3) =>
                        match skipWs r3 with
                        | ',' :: r4 =>
                            parseObjBodyF fuel r4 (appendField acc (String.mk k) v)
                        | c2 :: r4 =>
                            if c2 = rbrace then
                              some (.obj (appendField acc (String.mk k) v), r4)
                            else none
                        | [] => none
                | _ => none
          else none

/-- Parse the elements of a JSON array after the opening bracket. -/
def parseArrBodyF : Nat → List Char → JsonList → Option (JsonValue × List Char)
  | 0, _, _ => none
  | fuel + 1, cs, acc =>
      match skipWs cs with
      | [] => none
      | c :: rest =>
          if c = ']' then some (.arr acc, rest)
          else
            match parseJsonValueF fuel (c :: rest) with
            | none => none
            | some (v, r1) =>
                match skipWs r1 with
                | ',' :: r2 => parseArrBodyF fuel r2 (appendElem acc v)
                | ']' :: r2 => some (.arr (appendElem acc v), r2)
                | _ => none

end

/-- JSON.parse: a value followed only by whitespace; anything else throws,
modelled as none. -/
def jsonParse (s : String) : Option JsonValue :=
  match parseJsonValueF (s.length + 1) s.data with
  | some (v, rest) => if (skipWs rest).isEmpty then some v else none
  | none => none

/-! Section: generate.ts, the generateChatOutput and generateActionResults visitors. -/

/-- An action call extracted from an action tag. -/
structure ActionCallOutput where
  name : String
  params : JsonValue

/-- A thinking or response entry extracted from a tag. -/
structure ResponseOutput where
  msgId : String
  content : String

/-- The parsed output of one generation round. -/
structure ChatOutput where
  calls : List ActionCallOutput
  thinking : List ResponseOutput
  responses : List ResponseOutput

/-- Lookup in the attribute object; the matchAll loop lets a later duplicate
attribute overwrite an earlier one, hence the reverse.  A missing attribute
is undefined in the source, modelled by the empty-string default at the use
sites below. -/
def attrGet (attrs : List (String × String)) (key : String) : Option String :=
  (attrs.reverse.find? (fun p => p.1 == key)).map (fun p => p.2)

/-- The visitor set of generateChatOutput / generateActionResults applied to
one visited node: an action tag body is JSON-parsed inside a try/catch (a
parse failure only skips that tag), thinking and response tags are recorded
verbatim, other tags and free text are ignored. -/
def chatVisit (out : ChatOutput) (node : Node) : ChatOutput :=
  match node with
  | .text _ => out
  | .element name attrs content _ =>
      if name = "action" then
        match jsonParse content with
        | some params =>
            { out with
                calls := out.calls ++ [⟨(attrGet attrs "name").getD "", params⟩] }
        | none => out
      else if name = "thinking" then
        { out with
            thinking := out.thinking ++ [⟨(attrGet attrs "msgId").getD "", content⟩] }
      else if name = "response" then
        { out with
            responses := out.responses ++ [⟨(attrGet attrs "msgId").getD "", content⟩] }
      else out

/-- createPrompt(...).parse with the chat visitors: scan the response into
nodes and fold the visitors over them. -/
def parseChatResponse (response : String) : ChatOutput :=
  (xmlParse response).foldl chatVisit ⟨[], [], []⟩

/-! Section: the runtime data model (ElizaRuntime, memories). -/

/-- Memory ids, modelled as natural numbers allocated by a counter. -/
abbrev UUID := Nat

/-- The content of an ActionMemory of kind Call. -/
structure ActionCallContent where
  name : String
  msgId : UUID
  params : JsonValue

/-- The content of an ActionMemory of kind Result; callId references the id
of the originating Call memory. -/
structure ActionResultContent where
  name : String
  msgId : UUID
  callId : UUID
  params : JsonValue
  result : JsonValue

/-- The tagged union stored in an ActionMemory. -/
inductive ActionContent where
  | call (c : ActionCallContent)
  | result (r : ActionResultContent)

/-- An action memory row of one room. -/
structure ActionMemory where
  id : UUID
  content : ActionContent

/-- utils.ts isActionCall. -/
def isActionCall (m : ActionMemory) : Bool :=
  match m.content with
  | .call _ => true
  | .result _ => false

/-- utils.ts isActionResult. -/
def isActionResult (m : ActionMemory) : Bool :=
  match m.content with
  | .call _ => false
  | .result _ => true

/-- A thought memory row: the reasoning text tied to the triggering
message id. -/
structure ThoughtMem where
  msgId : UUID
  text : String

/-- A message memory row. -/
structure MessageMem where
  id : UUID
  text : String

/-- The append-only memory store of one room, with the id counter of the
persistence layer. -/
structure Store where
  actionMems : List ActionMemory
  thoughtMems : List ThoughtMem
  messageMems : List MessageMem
  nextId : UUID

/-- memories.actions.createMemory: assign the next id, append, return the
stored record. -/
def createActionMemory (st : Store) (content : ActionContent) :
    Store × ActionMemory :=
  let mem : ActionMemory := ⟨st.nextId, content⟩
  ({ st with actionMems := st.actionMems ++ [mem], nextId := st.nextId + 1 }, mem)

/-- A registered action definition.  The parameter schema resolution and
handler are modelled as functions of the call params; a thrown exception is
an error value.  (The runtime, message and state arguments of the source are
elided: no verified property depends on them.) -/
structure Action where
  name : String
  schemaParse : JsonValue → Except String JsonValue
  handler : JsonValue → Except String JsonValue

/-- ElizaRuntime.processActionCall: resolve the schema, validate the params,
run the handler, and write a Result memory spreading the call content with
callId set to the call memory id and the handler return value.  A throwing
schema.parse or handler is a rejected promise: Promise.allSettled swallows
it and no Result memory is written. -/
def processActionCall (st : Store) (action : Action) (call : ActionMemory)
    (cc : ActionCallContent) : Store :=
  match action.schemaParse cc.params with
  | .error _ => st
  | .ok params =>
      match action.handler params with
      | .error _ => st
      | .ok result =>
          (createActionMemory st (.result
            { name := cc.name, msgId := cc.msgId, callId := call.id,
              params := cc.params, result := result })).1

/-- ElizaRuntime.processActions: for every memory of the batch, skip
non-calls, skip calls whose name matches no registered action (logged only),
and dispatch the rest.  The source awaits all dispatched handlers
(settle-all); the writes are modelled in batch order. -/
def processActions (st : Store) (registered : List Action)
    (mems : List ActionMemory) : Store :=
  mems.foldl
    (fun st m =>
      match m.content with
      | .result _ => st
      | .call c =>
          match registered.find? (fun a => a.name == c.name) with
          | none => st
          | some a => processActionCall st a m c)
    st

/-- The actions component of a composed State: insertion-ordered maps and the
processing set, modelled as association lists without duplicate keys. -/
structure ActionsState where
  calls : List (UUID × ActionMemory)
  results : List (UUID × ActionMemory)
  processing : List UUID

/-- Map.set on an insertion-ordered association list. -/
def mapSet (m : List (UUID × ActionMemory)) (k : UUID) (v : ActionMemory) :
    List (UUID × ActionMemory) :=
  if m.any (fun p => p.1 == k) then
    m.map (fun p => if p.1 == k then (k, v) else p)
  else m ++ [(k, v)]

/-- Set.add. -/
def setAdd (s : List UUID) (x : UUID) : List UUID :=
  if s.contains x then s else s ++ [x]

/-- Set.delete. -/
def setDelete (s : List UUID) (x : UUID) : List UUID :=
  s.filter (fun y => y ≠ x)

/-- ElizaRuntime.getRoomState, restricted to the actions component: fold over
the action memories in the order the store returned them; a Call enters the
calls map and the processing set, a Result deletes its callId from processing
and enters the results map. -/
def getRoomStateActions (mems : List ActionMemory) : ActionsState :=
  mems.foldl
    (fun acc m =>
      match m.content with
      | .call _ =>
          { acc with
              calls := mapSet acc.calls m.id m,
              processing := setAdd acc.processing m.id }
      | .result r =>
          { acc with
              processing := setDelete acc.processing r.callId,
              results := mapSet acc.results m.id m })
    ⟨[], [], []⟩

/-! Section: client.ts, handleRoomMessage.

One turn for one inbound message.  The LLM is an oracle: the parsed output
of the initial generateChatOutput call is an input, and the parsed output of
the generateActionResults call of loop round k is an input indexed by k.
The top level try/catch of the source turns any thrown exception into an
aborted turn that keeps all effects already persisted; this is the crashed
flag. -/

/-- The observable state of one turn: the memory store, the messages handed
to client.sendMessage in order, the number of processActions invocations,
and whether the turn was aborted by a thrown exception. -/
structure TurnState where
  store : Store
  sent : List MessageMem
  dispatches : Nat
  crashed : Bool

/-- Persist one thinking entry as a Thought memory tied to the triggering
message id (lines 179-188 and 264-272 of client.ts). -/
def appendThought (ts : TurnState) (msgId : UUID) (text : String) : TurnState :=
  { ts with store :=
      { ts.store with thoughtMems := ts.store.thoughtMems ++ [⟨msgId, text⟩] } }

/-- Join the response contents with newlines into one outbound Message
memory and hand it to client.sendMessage (lines 192-205 and 274-285 of
client.ts; only reached when the responses list is nonempty). -/
def deliverResponses (ts : TurnState) (responses : List ResponseOutput) :
    TurnState :=
  let msg : MessageMem :=
    ⟨ts.store.nextId, String.intercalate "\n" (responses.map (fun r => r.content))⟩
  { ts with
      store :=
        { ts.store with
            messageMems := ts.store.messageMems ++ [msg],
            nextId := ts.store.nextId + 1 },
      sent := ts.sent ++ [msg] }

/-- Persist every pending call of a round as a Call memory carrying the
triggering message id (lines 214-228 of client.ts), returning the created
memories in order. -/
def createCallMemories (ts : TurnState) (msgId : UUID) :
    List ActionCallOutput → TurnState × List ActionMemory
  | [] => (ts, [])
  | call :: rest =>
      let p := createActionMemory ts.store (.call ⟨call.name, msgId, call.params⟩)
      let q := createCallMemories { ts with store := p.1 } msgId rest
      (q.1, p.2 :: q.2)

/-- The hard cap on dispatch/follow-up rounds (client.ts line 211). -/
def maxSteps : Nat := 3

/-- The fixed inputs of the action loop: the registered actions, the
triggering message id, and the LLM oracle for the follow-up rounds. -/
structure LoopCtx where
  registered : List Action
  msgId : UUID
  followups : Nat → ChatOutput

/-- The while loop of client.ts lines 213-289.  The accumulator
actionCallMemories is never cleared in the source, so every round dispatches
the whole accumulated list again.  When a round's parsed output has no
thinking entry, indexing thinking[0] throws; the exception is caught by the
top-level catch, ending the turn (crashed).  Fuel: the loop runs at most
maxSteps times because step is incremented every iteration, so fuel
maxSteps at entry with step 0 is exact. -/
def loopGo (ctx : LoopCtx) :
    Nat → List ActionCallOutput → List ActionMemory → Nat → TurnState → TurnState
  | 0, _, _, _, ts => ts
  | fuel + 1, newActionCalls, actionCallMemories, step, ts =>
      if 0 < newActionCalls.length ∧ step < maxSteps then
        let p := createCallMemories ts ctx.msgId newActionCalls
        let accMems := actionCallMemories ++ p.2
        if accMems.length = 0 then p.1
        else
          let ts2 : TurnState :=
            { p.1 with
                store := processActions p.1.store ctx.registered accMems,
                dispatches := p.1.dispatches + 1 }
          let r := ctx.followups step
          match r.thinking with
          | [] => { ts2 with crashed := true }
          | t :: _ =>
              let ts3 := appendThought ts2 ctx.msgId t.content
              let ts4 :=
                if 0 < r.responses.length then deliverResponses ts3 r.responses
                else ts3
              loopGo ctx fuel r.calls accMems (step + 1) ts4
      else ts

/-- handleRoomMessage after the inbound message memory was created: persist
the first thinking entry (crashing when there is none), deliver the joined
responses when any, then run the action loop starting from the calls of the
initial round. -/
def runTurn (registered : List Action) (msg : MessageMem) (init : ChatOutput)
    (followups : Nat → ChatOutput) : TurnState :=
  let ts0 : TurnState :=
    { store := { actionMems := [], thoughtMems := [], messageMems := [msg],
                 nextId := msg.id + 1 },
      sent := [], dispatches := 0, crashed := false }
  match init.thinking with
  | [] => { ts0 with crashed := true }
  | t :: _ =>
      let ts1 := appendThought ts0 msg.id t.content
      let ts2 :=
        if 0 < init.responses.length then deliverResponses ts1 init.responses
        else ts1
      loopGo ⟨registered, msg.id, followups⟩ maxSteps init.calls [] 0 ts2

/-- The number of Result memories whose callId is the given call id. -/
def resultsForCall (st : Store) (cid : UUID) : Nat :=
  (st.actionMems.filter
    (fun m =>
      match m.content with
      | .result r => r.callId == cid
      | .call _ => false)).length

/-! Section: concrete test fixtures used by the per-claim evaluations. -/

/-- An always-succeeding registered action with a pass-through schema. -/
def okAction (n : String) : Action :=
  ⟨n, fun p => .ok p, fun _ => .ok (.str "done")⟩

/-- A registered action whose handler throws. -/
def failAction : Action := ⟨"F", fun p => .ok p, fun _ => .error "boom"⟩

/-- Two registered actions for the two-round turn. -/
def regAB : List Action := [okAction "A", okAction "B"]

/-- The inbound message of the concrete turn. -/
def msgIn : MessageMem := ⟨0, "hi"⟩

/-- A thinking entry present in every generation round of the fixtures. -/
def thinkEntry : ResponseOutput := ⟨"0", "t"⟩

/-- Initial round output: one call of action A, no responses. -/
def initCallsA : ChatOutput := ⟨[⟨"A", .null⟩], [thinkEntry], []⟩

/-- Follow-up oracle: round 0 requests one call of action B, later rounds
request nothing. -/
def followupsB : Nat → ChatOutput := fun n =>
  match n with
  | 0 => ⟨[⟨"B", .null⟩], [thinkEntry], []⟩
  | _ => ⟨[], [thinkEntry], []⟩

/-- A call memory of an action named F. -/
def callMemF : ActionMemory := ⟨7, .call ⟨"F", 0, .null⟩⟩

/-- An empty store whose id counter starts at 10. -/
def storeTen : Store := ⟨[], [], [], 10⟩

/-- A call memory with id 1. -/
def callMemOne : ActionMemory := ⟨1, .call ⟨"A", 0, .null⟩⟩

/-- A result memory with id 2 referencing call id 1. -/
def resultMemTwo : ActionMemory := ⟨2, .result ⟨"A", 0, 1, .null, .str "ok"⟩⟩

/-- A response string with a well-formed action tag followed by a sibling
action tag with a malformed JSON body. -/
def responseGoodBadSibling : String :=
  "<action name=\"a\">\x7b\"k\":\"v\"\x7d</action><action name=\"b\">\x7boops\x7d</action>"

/-- A response string with a well-formed action tag followed by a
self-closing (hence empty-body, malformed-JSON) action tag. -/
def responseGoodBadSelfClosing : String :=
  "<action name=\"a\">\x7b\"k\":\"v\"\x7d</action><action name=\"b\"/>"

/-- A response string with a complete response element followed by an action
opening tag that is never closed. -/
def responseThenUnclosed : String :=
  "<response msgId=\"1\">hi</response><action name=\"a\">\x7b"

/-- The environment of the template example: name is the string Bo, items is
the two-element string list. -/
def envHello : String → Option JsonValue := fun k =>
  if k = "name" then some (.str "Bo")
  else if k = "items" then some (.arr (JsonList.ofList [.str "a", .str "b"]))
  else none

/-! Section: helper lemmas. -/

theorem processActionCall_thoughtMems (st : Store) (a : Action)
    (m : ActionMemory) (cc : ActionCallContent) :
    (processActionCall st a m cc).thoughtMems = st.thoughtMems := by
  unfold processActionCall
  split
  · rfl
  · split
    · rfl
    · rfl

theorem processActionCall_messageMems (st : Store) (a : Action)
    (m : ActionMemory) (cc : ActionCallContent) :
    (processActionCall st a m cc).messageMems = st.messageMems := by
  unfold processActionCall
  split
  · rfl
  · split
    · rfl
    · rfl

theorem processActions_cons (st : Store) (reg : List Action) (m : ActionMemory)
    (rest : List ActionMemory) :
    processActions st reg (m :: rest) =
      processActions
        (match m.content with
         | .result _ => st
         | .call c =>
             match reg.find? (fun a => a.name == c.name) with
             | none => st
             | some a => processActionCall st a m c)
        reg rest := rfl

theorem processActions_thoughtMems (reg : List Action) :
    ∀ (mems : List ActionMemory) (st : Store),
      (processActions st reg mems).thoughtMems = st.thoughtMems := by
  intro mems
  induction mems with
  | nil => intro st; rfl
  | cons m rest ih =>
      intro st
      rw [processActions_cons, ih]
      split
      · rfl
      · split
        · rfl
        · exact processActionCall_thoughtMems st _ m _

theorem processActions_messageMems (reg : List Action) :
    ∀ (mems : List ActionMemory) (st : Store),
      (processActions st reg mems).messageMems = st.messageMems := by
  intro mems
  induction mems with
  | nil => intro st; rfl
  | cons m rest ih =>
      intro st
      rw [processActions_cons, ih]
      split
      · rfl
      · split
        · rfl
        · exact processActionCall_messageMems st _ m _

theorem createCallMemories_thoughtMems (msgId : UUID) :
    ∀ (calls : List ActionCallOutput) (ts : TurnState),
      (createCallMemories ts msgId calls).1.store.thoughtMems
        = ts.store.thoughtMems := by
  intro calls
  induction calls with
  | nil => intro ts; rfl
  | cons c rest ih => intro ts; exact ih _

theorem createCallMemories_messageMems (msgId : UUID) :
    ∀ (calls : List ActionCallOutput) (ts : TurnState),
      (createCallMemories ts msgId calls).1.store.messageMems
        = ts.store.messageMems := by
  intro calls
  induction calls with
  | nil => intro ts; rfl
  | cons c rest ih => intro ts; exact ih _

theorem createCallMemories_sent (msgId : UUID) :
    ∀ (calls : List ActionCallOutput) (ts : TurnState),
      (createCallMemories ts msgId calls).1.sent = ts.sent := by
  intro calls
  induction calls with
  | nil => intro ts; rfl
  | cons c rest ih => intro ts; exact ih _

theorem createCallMemories_dispatches (msgId : UUID) :
    ∀ (calls : List ActionCallOutput) (ts : TurnState),
      (createCallMemories ts msgId calls).1.dispatches = ts.dispatches := by
  intro calls
  induction calls with
  | nil => intro ts; rfl
  | cons c rest ih => intro ts; exact ih _

theorem createCallMemories_crashed (msgId : UUID) :
    ∀ (calls : List ActionCallOutput) (ts : TurnState),
      (createCallMemories ts msgId calls).1.crashed = ts.crashed := by
  intro calls
  induction calls with
  | nil => intro ts; rfl
  | cons c rest ih => intro ts; exact ih _

theorem createCallMemories_count (msgId : UUID) :
    ∀ (calls : List ActionCallOutput) (ts : TurnState),
      (createCallMemories ts msgId calls).2.length = calls.length := by
  intro calls
  induction calls with
  | nil => intro ts; rfl
  | cons c rest ih =>
      intro ts
      simp only [createCallMemories, List.length_cons]
      rw [ih]

theorem loopGo_nil (ctx : LoopCtx) (fuel : Nat) (acc : List ActionMemory)
    (step : Nat) (ts : TurnState) :
    loopGo ctx fuel [] acc step ts = ts := by
  cases fuel with
  | zero => rfl
  | succ f => simp [loopGo]

theorem appendThought_sent (ts : TurnState) (msgId : UUID) (text : String) :
    (appendThought ts msgId text).sent = ts.sent := rfl

theorem appendThought_dispatches (ts : TurnState) (msgId : UUID) (text : String) :
    (appendThought ts msgId text).dispatches = ts.dispatches := rfl

theorem deliverResponses_dispatches (ts : TurnState) (rs : List ResponseOutput) :
    (deliverResponses ts rs).dispatches = ts.dispatches := rfl

theorem deliverResponses_thoughtMems (ts : TurnState) (rs : List ResponseOutput) :
    (deliverResponses ts rs).store.thoughtMems = ts.store.thoughtMems := rfl

theorem roundTail_dispatches (ts : TurnState) (msgId : UUID) (txt : String)
    (cond : Prop) [Decidable cond] (rs : List ResponseOutput) :
    (if cond then deliverResponses (appendThought ts msgId txt) rs
     else appendThought ts msgId txt).dispatches = ts.dispatches := by
  split
  · rfl
  · rfl

theorem loopGo_dispatches_le (ctx : LoopCtx) :
    ∀ (fuel : Nat) (nc : List ActionCallOutput) (acc : List ActionMemory)
      (step : Nat) (ts : TurnState),
      (loopGo ctx fuel nc acc step ts).dispatches ≤ ts.dispatches + fuel := by
  intro fuel
  induction fuel with
  | zero =>
      intro nc acc step ts
      simp [loopGo]
  | succ f ih =>
      intro nc acc step ts
      simp only [loopGo]
      split
      · split
        · rw [createCallMemories_dispatches]
          omega
        · split
          · show (createCallMemories ts ctx.msgId nc).1.dispatches + 1
              ≤ ts.dispatches + (f + 1)
            rw [createCallMemories_dispatches]
            omega
          · refine le_trans (ih _ _ _ _) ?_
            rw [roundTail_dispatches]
            show (createCallMemories ts ctx.msgId nc).1.dispatches + 1 + f
              ≤ ts.dispatches + (f + 1)
            rw [createCallMemories_dispatches]
            omega
      · omega

theorem roundTail_thoughtMems (ts : TurnState) (msgId : UUID) (txt : String)
    (cond : Prop) [Decidable cond] (rs : List ResponseOutput) :
    (if cond then deliverResponses (appendThought ts msgId txt) rs
     else appendThought ts msgId txt).store.thoughtMems
      = ts.store.thoughtMems ++ [⟨msgId, txt⟩] := by
  split
  · rfl
  · rfl

theorem loopGo_thoughtMems_extend (ctx : LoopCtx) :
    ∀ (fuel : Nat) (nc : List ActionCallOutput) (acc : List ActionMemory)
      (step : Nat) (ts : TurnState),
      ∃ l, (loopGo ctx fuel nc acc step ts).store.thoughtMems
        = ts.store.thoughtMems ++ l := by
  intro fuel
  induction fuel with
  | zero =>
      intro nc acc step ts
      exact ⟨[], by simp [loopGo]⟩
  | succ f ih =>
      intro nc acc step ts
      simp only [loopGo]
      split
      · split
        · refine ⟨[], ?_⟩
          rw [createCallMemories_thoughtMems]
          simp
        · split
          · refine ⟨[], ?_⟩
            show (processActions (createCallMemories ts ctx.msgId nc).1.store
                ctx.registered (acc ++ (createCallMemories ts ctx.msgId nc).2)).thoughtMems
              = ts.store.thoughtMems ++ []
            rw [processActions_thoughtMems, createCallMemories_thoughtMems]
            simp
          · rename_i t tail heq
            obtain ⟨l, hl⟩ := ih _ _ _ _
            refine ⟨⟨ctx.msgId, t.content⟩ :: l, ?_⟩
            rw [hl, roundTail_thoughtMems]
            show (processActions (createCallMemories ts ctx.msgId nc).1.store
                  ctx.registered (acc ++ (createCallMemories ts ctx.msgId nc).2)).thoughtMems
                ++ [⟨ctx.msgId, t.content⟩] ++ l
              = ts.store.thoughtMems ++ (⟨ctx.msgId, t.content⟩ :: l)
            rw [processActions_thoughtMems, createCallMemories_thoughtMems,
              List.append_assoc]
            simp
      · exact ⟨[], by simp⟩

theorem processActions_nil (st : Store) (reg : List Action) :
    processActions st reg [] = st := rfl

theorem get?_append_cons {A : Type} (l1 l2 : List A) (x : A) :
    (l1 ++ x :: l2).get? l1.length = some x := by
  induction l1 with
  | nil => rfl
  | cons a l ih => simpa using ih

theorem formatValueList_ofList :
    ∀ xs : List JsonValue,
      formatValueList (JsonList.ofList xs) = xs.map formatValue := by
  intro xs
  induction xs with
  | nil => rfl
  | cons x rest ih => simp [JsonList.ofList, formatValueList, ih]

/-! Section: the claims. -/

/-- C1: the claim states that a Call memory never receives a second Result
across the dispatch rounds of one turn.  The code violates it: the
actionCallMemories accumulator of handleRoomMessage is never cleared, so
round two re-dispatches the call of round one and records a second Result
for it.  In the two-round turn below (round one calls A, the follow-up
requests B), call memory 1 (the Call of A) ends the turn with two Result
memories referencing it. -/
theorem claim1_duplicate_result_recorded :
    ((runTurn regAB msgIn initCallsA followupsB).store.actionMems.filter
      (fun m => isActionCall m && m.id == 1)).length = 1 ∧
    resultsForCall (runTurn regAB msgIn initCallsA followupsB).store 1 = 2 :=
  ⟨rfl, rfl⟩

/-- C2 counterexample: a dispatched call whose name matches a registered
action but whose handler throws produces no Result memory at all, refuting
the claim that a Result is written regardless of whether the handler's
execution path succeeded or failed. -/
theorem claim2_counterexample :
    processActions storeTen [failAction] [callMemF] = storeTen ∧
    resultsForCall (processActions storeTen [failAction] [callMemF]) 7 = 0 :=
  ⟨rfl, rfl⟩

/-- C2 amended: for a dispatched call whose name matches a registered action,
a Result memory carrying the same name and msgId, the originating call id as
callId, and the handler's return value is written exactly when the parameter
validation and the handler both succeed; a throwing handler or failing
validation is swallowed by the settle-all await and leaves the store
unchanged. -/
theorem claim2_amended_result_on_success :
    ∀ (st : Store) (registered : List Action) (a : Action) (m : ActionMemory)
      (cc : ActionCallContent) (params result : JsonValue),
      m.content = .call cc →
      registered.find? (fun x => x.name == cc.name) = some a →
      a.schemaParse cc.params = .ok params →
      a.handler params = .ok result →
      (processActions st registered [m]).actionMems
        = st.actionMems
            ++ [⟨st.nextId, .result ⟨cc.name, cc.msgId, m.id, cc.params, result⟩⟩] := by
  intro st registered a m cc params result hc hf hp hh
  rw [processActions_cons]
  simp only [hc, hf]
  rw [processActions_nil]
  unfold processActionCall
  simp only [hp, hh]
  rfl

/-- C2 amended witness: a concrete successful dispatch. -/
theorem claim2_amended_witness :
    (processActions storeTen [okAction "A"] [callMemOne]).actionMems
      = [⟨10, .result ⟨"A", 0, 1, .null, .str "done"⟩⟩] :=
  claim2_amended_result_on_success storeTen [okAction "A"] (okAction "A")
    callMemOne ⟨"A", 0, .null⟩ .null (.str "done") rfl rfl rfl rfl

/-- C3: the orchestration loop performs at most three dispatch rounds per
turn, for every sequence of LLM outputs; an initial round without calls
dispatches nothing, and a loop entered with no pending calls returns
immediately. -/
theorem claim3_step_bound :
    (∀ (registered : List Action) (msg : MessageMem) (init : ChatOutput)
       (followups : Nat → ChatOutput),
       (runTurn registered msg init followups).dispatches ≤ 3) ∧
    (∀ (registered : List Action) (msg : MessageMem) (init : ChatOutput)
       (followups : Nat → ChatOutput),
       init.calls = [] →
       (runTurn registered msg init followups).dispatches = 0) ∧
    (∀ (ctx : LoopCtx) (fuel : Nat) (acc : List ActionMemory) (step : Nat)
       (ts : TurnState), loopGo ctx fuel [] acc step ts = ts) := by
  refine ⟨?_, ?_, ?_⟩
  · intro registered msg init followups
    simp only [runTurn]
    split
    · show (0 : Nat) ≤ 3
      omega
    · refine le_trans (loopGo_dispatches_le _ _ _ _ _ _) ?_
      rw [roundTail_dispatches]
      show (0 : Nat) + maxSteps ≤ 3
      simp [maxSteps]
  · intro registered msg init followups hcalls
    simp only [runTurn]
    split
    · rfl
    · rw [hcalls, loopGo_nil, roundTail_dispatches]
  · intro ctx fuel acc step ts
    exact loopGo_nil ctx fuel acc step ts

/-- C3 witness: the concrete two-round turn dispatches at most three times,
and a call-free initial round dispatches zero times. -/
theorem claim3_witness :
    (runTurn regAB msgIn initCallsA followupsB).dispatches ≤ 3 ∧
    (runTurn regAB msgIn ⟨[], [thinkEntry], []⟩ followupsB).dispatches = 0 :=
  ⟨claim3_step_bound.1 regAB msgIn initCallsA followupsB,
   claim3_step_bound.2.1 regAB msgIn ⟨[], [thinkEntry], []⟩ followupsB rfl⟩

/-- C4 counterexample: a response with one well-formed action tag and one
malformed sibling action tag yields zero extracted calls, not one: the
last-matching-close-tag search merges the two sibling elements into one
whose combined body fails JSON parsing. -/
theorem claim4_counterexample :
    (parseChatResponse responseGoodBadSibling).calls.length = 0 ∧
    ¬ (parseChatResponse responseGoodBadSibling).calls.length = 1 :=
  ⟨rfl, by decide⟩

/-- C4 amended: parsing never throws and a JSON parse failure inside one tag
only suppresses that tag.  But when the malformed action tag is a sibling
element with its own closing tag, the last-close-tag scan merges both
actions into one element whose body fails JSON parsing, yielding zero calls;
exactly one call is extracted when the malformed action tag is self-closing
(leaving the well-formed tag's close as the only close tag). -/
theorem claim4_amended_tag_parse :
    (parseChatResponse responseGoodBadSibling).calls = [] ∧
    (parseChatResponse responseGoodBadSelfClosing).calls
      = [⟨"a", .obj (JsonFields.ofList [("k", .str "v")])⟩] :=
  ⟨rfl, rfl⟩

/-- C5 counterexample: when the store returns the Result memory before its
Call memory, the fold of getRoomState first deletes the call id from the
(still empty) processing set and then adds it back, so the id remains in
processing even though its Result is present in results — refuting the
for-every-order part of the claim. -/
theorem claim5_counterexample :
    resultMemTwo.content = .result ⟨"A", 0, 1, .null, .str "ok"⟩ ∧
    (getRoomStateActions [resultMemTwo, callMemOne]).results
      = [(2, resultMemTwo)] ∧
    (getRoomStateActions [resultMemTwo, callMemOne]).processing = [1] :=
  ⟨rfl, rfl, rfl⟩

/-- C5 amended: the claim holds when the store returns the Call before the
Result (the append-only insertion order): with only the Call, its id is in
processing; after the Result referencing it is appended, the id is absent
from processing and the Result is present in results. -/
theorem claim5_amended_processing_set :
    ∀ (cc : ActionCallContent) (rc : ActionResultContent) (cid rid : UUID),
      rc.callId = cid →
      (getRoomStateActions [⟨cid, .call cc⟩]).processing = [cid] ∧
      (getRoomStateActions [⟨cid, .call cc⟩]).calls
        = [(cid, ⟨cid, .call cc⟩)] ∧
      (getRoomStateActions [⟨cid, .call cc⟩, ⟨rid, .result rc⟩]).processing
        = [] ∧
      (getRoomStateActions [⟨cid, .call cc⟩, ⟨rid, .result rc⟩]).results
        = [(rid, ⟨rid, .result rc⟩)] := by
  intro cc rc cid rid h
  refine ⟨?_, ?_, ?_, ?_⟩
  · simp [getRoomStateActions, setAdd, mapSet]
  · simp [getRoomStateActions, setAdd, mapSet]
  · simp [getRoomStateActions, setAdd, mapSet, setDelete, h]
  · simp [getRoomStateActions, setAdd, mapSet, setDelete, h]

/-- C5 amended witness: the concrete call/result pair in insertion order. -/
theorem claim5_amended_witness :
    (getRoomStateActions [callMemOne]).processing = [1] ∧
    (getRoomStateActions [callMemOne, resultMemTwo]).processing = [] ∧
    (getRoomStateActions [callMemOne, resultMemTwo]).results
      = [(2, resultMemTwo)] :=
  ⟨(claim5_amended_processing_set ⟨"A", 0, .null⟩ ⟨"A", 0, 1, .null, .str "ok"⟩
      1 2 rfl).1,
   (claim5_amended_processing_set ⟨"A", 0, .null⟩ ⟨"A", 0, 1, .null, .str "ok"⟩
      1 2 rfl).2.2.1,
   (claim5_amended_processing_set ⟨"A", 0, .null⟩ ⟨"A", 0, 1, .null, .str "ok"⟩
      1 2 rfl).2.2.2⟩

/-- C6: template substitution: the concrete example renders as specified; a
missing key renders as the empty string without throwing; a string value is
inserted verbatim; a list value is newline-joined after formatting each
element recursively; any non-string non-list value is inserted as its JSON
serialization. -/
theorem claim6_template_substitution :
    template "Hello \x7b\x7bname\x7d\x7d, items: \x7b\x7bitems\x7d\x7d" envHello
      = "Hello Bo, items: a\nb" ∧
    template "x\x7b\x7bmissing\x7d\x7dy" (fun _ => none) = "xy" ∧
    (∀ s, formatValue (.str s) = s) ∧
    (∀ xs, formatValue (.arr xs) = String.intercalate "\n" (formatValueList xs)) ∧
    (∀ xs : List JsonValue,
       formatValueList (JsonList.ofList xs) = xs.map formatValue) ∧
    (∀ n, formatValue (.num n) = jsonStringify (.num n)) ∧
    (∀ b, formatValue (.bool b) = jsonStringify (.bool b)) ∧
    (∀ fs, formatValue (.obj fs) = jsonStringify (.obj fs)) ∧
    formatValue .null = jsonStringify .null := by
  refine ⟨rfl, rfl, ?_, ?_, formatValueList_ofList, ?_, ?_, ?_, rfl⟩
  · intro s; rfl
  · intro xs; rfl
  · intro n; rfl
  · intro b; rfl
  · intro fs; rfl

/-- C7: dispatching a batch containing a Call whose name matches no
registered action is a no-op for that call: the dispatch of the batch equals
the dispatch of the batch with that call removed (so no Result is created
for it, nothing throws, and the remaining calls are processed as before). -/
theorem claim7_unknown_action_noop :
    ∀ (st : Store) (registered : List Action) (pre post : List ActionMemory)
      (m : ActionMemory) (cc : ActionCallContent),
      m.content = .call cc →
      registered.find? (fun a => a.name == cc.name) = none →
      processActions st registered (pre ++ m :: post)
        = processActions st registered (pre ++ post) := by
  intro st registered pre post m cc hc hf
  induction pre generalizing st with
  | nil =>
      simp only [List.nil_append]
      rw [processActions_cons]
      simp only [hc, hf]
  | cons x pre ih =>
      simp only [List.cons_append]
      rw [processActions_cons]
      conv_rhs => rw [processActions_cons]
      exact ih _

/-- C7 witness: an unregistered call in front of a registered one. -/
theorem claim7_witness :
    processActions storeTen regAB [⟨3, .call ⟨"ZZZ", 0, .null⟩⟩, callMemOne]
      = processActions storeTen regAB [callMemOne] :=
  claim7_unknown_action_noop storeTen regAB [] [callMemOne]
    ⟨3, .call ⟨"ZZZ", 0, .null⟩⟩ ⟨"ZZZ", 0, .null⟩ rfl rfl

/-- C8: every generation round requires at least one thinking entry.  When
the initial round has one, its text is persisted as the first Thought memory
tied to the triggering message id; when a follow-up round has one, its first
entry's text is persisted as the next Thought memory tied to the same
message id (and survives the rest of the loop).  When the initial round has
none, the indexing of the empty thinking list throws and the turn aborts
with nothing persisted beyond the inbound message.  When a follow-up round
has none, the turn aborts right after that round's dispatch: no further
thought, outbound message or delivery happens. -/
theorem claim8_thinking_precondition :
    (∀ (registered : List Action) (msg : MessageMem) (init : ChatOutput)
       (followups : Nat → ChatOutput) (t : ResponseOutput)
       (rest : List ResponseOutput),
       init.thinking = t :: rest →
       (runTurn registered msg init followups).store.thoughtMems.head?
         = some ⟨msg.id, t.content⟩) ∧
    (∀ (registered : List Action) (msg : MessageMem) (init : ChatOutput)
       (followups : Nat → ChatOutput),
       init.thinking = [] →
       (runTurn registered msg init followups).crashed = true ∧
       (runTurn registered msg init followups).sent = [] ∧
       (runTurn registered msg init followups).store.thoughtMems = [] ∧
       (runTurn registered msg init followups).store.actionMems = [] ∧
       (runTurn registered msg init followups).store.messageMems = [msg]) ∧
    (∀ (ctx : LoopCtx) (fuel : Nat) (nc : List ActionCallOutput)
       (acc : List ActionMemory) (step : Nat) (ts : TurnState),
       0 < nc.length → step < maxSteps → (ctx.followups step).thinking = [] →
       (loopGo ctx (fuel + 1) nc acc step ts).crashed = true ∧
       (loopGo ctx (fuel + 1) nc acc step ts).sent = ts.sent ∧
       (loopGo ctx (fuel + 1) nc acc step ts).store.thoughtMems
         = ts.store.thoughtMems ∧
       (loopGo ctx (fuel + 1) nc acc step ts).store.messageMems
         = ts.store.messageMems) ∧
    (∀ (ctx : LoopCtx) (fuel : Nat) (nc : List ActionCallOutput)
       (acc : List ActionMemory) (step : Nat) (ts : TurnState)
       (t : ResponseOutput) (rest : List ResponseOutput),
       0 < nc.length → step < maxSteps →
       (ctx.followups step).thinking = t :: rest →
       (loopGo ctx (fuel + 1) nc acc step ts).store.thoughtMems.get?
           ts.store.thoughtMems.length
         = some ⟨ctx.msgId, t.content⟩) := by
  refine ⟨?_, ?_, ?_, ?_⟩
  · intro registered msg init followups t rest ht
    simp only [runTurn, ht]
    obtain ⟨l, hl⟩ := loopGo_thoughtMems_extend _ _ _ _ _ _
    rw [hl, roundTail_thoughtMems]
    rfl
  · intro registered msg init followups ht
    simp [runTurn, ht]
  · intro ctx fuel nc acc step ts h1 h2 h3
    simp only [loopGo]
    split
    · split
      · rename_i hlen
        exfalso
        rw [List.length_append, createCallMemories_count] at hlen
        omega
      · split
        · refine ⟨rfl, ?_, ?_, ?_⟩
          · show (createCallMemories ts ctx.msgId nc).1.sent = ts.sent
            exact createCallMemories_sent ctx.msgId nc ts
          · show (processActions (createCallMemories ts ctx.msgId nc).1.store
                ctx.registered
                (acc ++ (createCallMemories ts ctx.msgId nc).2)).thoughtMems
              = ts.store.thoughtMems
            rw [processActions_thoughtMems, createCallMemories_thoughtMems]
          · show (processActions (createCallMemories ts ctx.msgId nc).1.store
                ctx.registered
                (acc ++ (createCallMemories ts ctx.msgId nc).2)).messageMems
              = ts.store.messageMems
            rw [processActions_messageMems, createCallMemories_messageMems]
        · rename_i t tail heq
          rw [h3] at heq
          exact absurd heq (by simp)
    · rename_i hcond
      exact absurd ⟨h1, h2⟩ hcond
  · intro ctx fuel nc acc step ts t rest h1 h2 ht
    simp only [loopGo]
    rw [if_pos ⟨h1, h2⟩]
    have hlen : ¬ (acc ++ (createCallMemories ts ctx.msgId nc).2).length = 0 := by
      rw [List.length_append, createCallMemories_count]
      omega
    rw [if_neg hlen]
    simp only [ht]
    obtain ⟨l, hl⟩ := loopGo_thoughtMems_extend _ _ _ _ _ _
    rw [hl, roundTail_thoughtMems]
    show ((processActions (createCallMemories ts ctx.msgId nc).1.store
          ctx.registered
          (acc ++ (createCallMemories ts ctx.msgId nc).2)).thoughtMems
        ++ [(⟨ctx.msgId, t.content⟩ : ThoughtMem)] ++ l).get?
          ts.store.thoughtMems.length
      = some (⟨ctx.msgId, t.content⟩ : ThoughtMem)
    rw [processActions_thoughtMems, createCallMemories_thoughtMems,
      List.append_assoc, List.singleton_append]
    exact get?_append_cons _ _ _

/-- C8 witness: concrete instances of all four parts. -/
theorem claim8_witness :
    (runTurn regAB msgIn initCallsA followupsB).store.thoughtMems.head?
      = some ⟨0, "t"⟩ ∧
    ((runTurn regAB msgIn ⟨[], [], []⟩ followupsB).crashed = true ∧
      (runTurn regAB msgIn ⟨[], [], []⟩ followupsB).sent = []) ∧
    ((loopGo ⟨regAB, 0, fun _ => ⟨[], [], []⟩⟩ 1 [⟨"A", .null⟩] [] 0
        ⟨⟨[], [], [msgIn], 1⟩, [], 0, false⟩).crashed = true ∧
      (loopGo ⟨regAB, 0, fun _ => ⟨[], [], []⟩⟩ 1 [⟨"A", .null⟩] [] 0
        ⟨⟨[], [], [msgIn], 1⟩, [], 0, false⟩).sent = []) ∧
    (loopGo ⟨regAB, 0, followupsB⟩ 1 [⟨"A", .null⟩] [] 0
        ⟨⟨[], [], [msgIn], 1⟩, [], 0, false⟩).store.thoughtMems.get? 0
      = some ⟨0, "t"⟩ := by
  refine ⟨?_, ?_, ?_, ?_⟩
  · exact claim8_thinking_precondition.1 regAB msgIn initCallsA followupsB
      thinkEntry [] rfl
  · have h := claim8_thinking_precondition.2.1 regAB msgIn ⟨[], [], []⟩
      followupsB rfl
    exact ⟨h.1, h.2.1⟩
  · have h := claim8_thinking_precondition.2.2.1
      ⟨regAB, 0, fun _ => ⟨[], [], []⟩⟩ 0 [⟨"A", .null⟩] [] 0
      ⟨⟨[], [], [msgIn], 1⟩, [], 0, false⟩ (by decide) (by decide) rfl
    exact ⟨h.1, h.2.1⟩
  · exact claim8_thinking_precondition.2.2.2 ⟨regAB, 0, followupsB⟩ 0
      [⟨"A", .null⟩] [] 0 ⟨⟨[], [], [msgIn], 1⟩, [], 0, false⟩ thinkEntry []
      (by decide) (by decide) rfl

/-- C9: whenever a generation round's parsed output has at least one
response entry, exactly one outbound Message memory is created whose text is
the newline-join of all response contents in order, and that single message
is handed to the client; a round with no responses creates and delivers
nothing.  Stated for the initial round (on a turn without calls) and for one
loop round. -/
theorem claim9_response_delivery :
    (∀ (registered : List Action) (msg : MessageMem) (init : ChatOutput)
       (followups : Nat → ChatOutput) (t : ResponseOutput)
       (rest : List ResponseOutput),
       init.thinking = t :: rest → init.calls = [] →
       (0 < init.responses.length →
          (runTurn registered msg init followups).sent.map (fun m => m.text)
            = [String.intercalate "\n"
                (init.responses.map (fun r => r.content))] ∧
          (runTurn registered msg init followups).store.messageMems.map
              (fun m => m.text)
            = [msg.text,
               String.intercalate "\n"
                 (init.responses.map (fun r => r.content))]) ∧
       (init.responses = [] →
          (runTurn registered msg init followups).sent = [] ∧
          (runTurn registered msg init followups).store.messageMems = [msg])) ∧
    (∀ (ctx : LoopCtx) (fuel : Nat) (nc : List ActionCallOutput)
       (acc : List ActionMemory) (step : Nat) (ts : TurnState)
       (t : ResponseOutput) (rest : List ResponseOutput),
       0 < nc.length → step < maxSteps →
       (ctx.followups step).thinking = t :: rest →
       (ctx.followups step).calls = [] →
       (0 < (ctx.followups step).responses.length →
          (loopGo ctx (fuel + 1) nc acc step ts).sent.map (fun m => m.text)
            = ts.sent.map (fun m => m.text)
              ++ [String.intercalate "\n"
                    ((ctx.followups step).responses.map (fun r => r.content))]) ∧
       ((ctx.followups step).responses = [] →
          (loopGo ctx (fuel + 1) nc acc step ts).sent = ts.sent)) := by
  constructor
  · intro registered msg init followups t rest ht hcalls
    simp only [runTurn, ht]
    rw [hcalls, loopGo_nil]
    constructor
    · intro hres
      rw [if_pos hres]
      exact ⟨rfl, rfl⟩
    · intro hres
      rw [hres]
      simp only [List.length_nil, lt_irrefl, if_false]
      exact ⟨rfl, rfl⟩
  · intro ctx fuel nc acc step ts t rest h1 h2 ht hcalls
    simp only [loopGo]
    rw [if_pos ⟨h1, h2⟩]
    have hlen : ¬ (acc ++ (createCallMemories ts ctx.msgId nc).2).length = 0 := by
      rw [List.length_append, createCallMemories_count]
      omega
    rw [if_neg hlen]
    simp only [ht]
    rw [hcalls, loopGo_nil]
    constructor
    · intro hres
      rw [if_pos hres]
      show ((createCallMemories ts ctx.msgId nc).1.sent
          ++ [(⟨_, String.intercalate "\n"
                ((ctx.followups step).responses.map (fun r => r.content))⟩ :
              MessageMem)]).map (fun m => m.text)
        = ts.sent.map (fun m => m.text)
          ++ [String.intercalate "\n"
                ((ctx.followups step).responses.map (fun r => r.content))]
      rw [createCallMemories_sent]
      simp
    · intro hres
      rw [hres]
      simp only [List.length_nil, lt_irrefl, if_false]
      show (createCallMemories ts ctx.msgId nc).1.sent = ts.sent
      exact createCallMemories_sent ctx.msgId nc ts

/-- C9 witness: a response-bearing initial round delivers the joined text; a
response-free loop round delivers nothing. -/
theorem claim9_witness :
    (runTurn regAB msgIn ⟨[], [thinkEntry], [⟨"0", "hel"⟩, ⟨"0", "lo"⟩]⟩
        followupsB).sent.map (fun m => m.text) = ["hel\nlo"] ∧
    (loopGo ⟨regAB, 0, fun _ => ⟨[], [thinkEntry], []⟩⟩ 1 [⟨"A", .null⟩] [] 0
        ⟨⟨[], [], [msgIn], 1⟩, [], 0, false⟩).sent = [] := by
  constructor
  · have h := (claim9_response_delivery.1 regAB msgIn
      ⟨[], [thinkEntry], [⟨"0", "hel"⟩, ⟨"0", "lo"⟩]⟩ followupsB thinkEntry []
      rfl rfl).1 (by decide)
    exact h.1
  · exact (claim9_response_delivery.2 ⟨regAB, 0, fun _ => ⟨[], [thinkEntry], []⟩⟩
      0 [⟨"A", .null⟩] [] 0 ⟨⟨[], [], [msgIn], 1⟩, [], 0, false⟩ thinkEntry []
      (by decide) (by decide) rfl rfl).2 rfl

/-- C10: when the scan of XMLParser.parse reaches an opening tag that is not
self-closing and whose closing tag occurs nowhere in the working text, the
scan stops: only the free text before that tag is emitted (and visited), the
element and everything after it produce no nodes.  The concrete response
shows a complete response element before such a tag still being visited. -/
theorem claim10_unmatched_open_tag :
    (∀ (fuel : Nat) (w : List Char) (tagStart tagEnd : Nat),
       idxOfFrom w '<' 0 = some tagStart →
       idxOfFrom w '>' tagStart = some tagEnd →
       ¬ w.get? (tagEnd - 1) = some '/' →
       lastIdxOfSub w
         ('<' :: '/' :: ((listSlice w (tagStart + 1) tagEnd).takeWhile
             (fun x => x ≠ ' ') ++ ['>'])) = none →
       parseLoopF (fuel + 1) w
         = if 0 < tagStart then
             [.text (String.mk (trimChars (listSlice w 0 tagStart)))]
           else []) ∧
    (parseChatResponse responseThenUnclosed).responses = [⟨"1", "hi"⟩] ∧
    (parseChatResponse responseThenUnclosed).calls = [] := by
  refine ⟨?_, rfl, rfl⟩
  intro fuel w tagStart tagEnd h1 h2 h3 h4
  have hw : w.isEmpty = false := by
    cases w with
    | nil => simp [idxOfFrom] at h1
    | cons c cs => rfl
  simp only [parseLoopF, hw, h1, h2, h4, Bool.false_eq_true, if_false]
  rw [if_neg h3]

/-- C10 witness: a lone unclosed opening tag with trailing text produces no
nodes at all. -/
theorem claim10_witness :
    parseLoopF 5 ['<', 'a', '>', 'x'] = [] := by
  have h := claim10_unmatched_open_tag.1 4 ['<', 'a', '>', 'x'] 0 2 rfl rfl
    (by decide) rfl
  simpa using h

end BuilderSync
